import Mathlib

/-!
Verification development for the CI log-analysis engine of
`action-log-analyzer` (`src/analyzer.ts`).

The TypeScript source is shallowly embedded: strings are Lean `String`s
(processed through their `data : List Char`), the concrete regular
expressions of the source are translated into executable character-list
matchers that follow the JavaScript regex semantics used on each call
site (leftmost match, greedy classes, the exact backtracking that the
shape of each pattern allows), and the opaque user-supplied catalog
regexes (`new RegExp(p.pattern, p.flags)`, used only through `.test`)
are abstracted as an `Option (String → Bool)` field: `none` models a
pattern string whose compilation throws, `some t` a compiled regex with
test function `t`.  Fallible code (`analyzeLogs`, which can throw on an
uncompilable catalog regex) returns `Except Unit`.
-/

/-- The character set of JavaScript `\s` (also the set trimmed by
`String.prototype.trim`): ASCII whitespace, NBSP, the Unicode space
separators, line/paragraph separators and the BOM. -/
def isJsSpace (c : Char) : Bool :=
  c = ' ' || c = Char.ofNat 9 || c = Char.ofNat 10 || c = Char.ofNat 11 ||
  c = Char.ofNat 12 || c = Char.ofNat 13 || c = Char.ofNat 0xa0 ||
  c = Char.ofNat 0x1680 || (0x2000 ≤ c.toNat && c.toNat ≤ 0x200a) ||
  c = Char.ofNat 0x2028 || c = Char.ofNat 0x2029 || c = Char.ofNat 0x202f ||
  c = Char.ofNat 0x205f || c = Char.ofNat 0x3000 || c = Char.ofNat 0xfeff

/-- The character set of the JavaScript regex `.` (without the `s` flag):
everything except the line terminators LF, CR, LS, PS. -/
def dotChar (c : Char) : Bool :=
  !(c = Char.ofNat 10 || c = Char.ofNat 13 || c = Char.ofNat 0x2028 ||
    c = Char.ofNat 0x2029)

/-- JavaScript `\w`: ASCII letters, digits and underscore. -/
def isWordChar (c : Char) : Bool :=
  c.isAlpha || c.isDigit || c = '_'

/-- Match a literal character sequence at the front; return the remainder. -/
def litAt : List Char → List Char → Option (List Char)
  | [], u => some u
  | _ :: _, [] => none
  | p :: ps, c :: u => if c = p then litAt ps u else none

/-- Case-insensitive variant of `litAt` (ASCII folding, the semantics of a
JavaScript `/i` regex over ASCII pattern literals). -/
def ciLitAt : List Char → List Char → Option (List Char)
  | [], u => some u
  | _ :: _, [] => none
  | p :: ps, c :: u => if c.toLower = p.toLower then ciLitAt ps u else none

/-- Leftmost-match scan: try the position matcher `f` at every suffix,
left to right, as a JavaScript regex engine advances an unanchored
pattern through the subject string. -/
def scanFor {α : Type} (f : List Char → Option α) : List Char → Option α
  | [] => f []
  | c :: rest =>
    match f (c :: rest) with
    | some r => some r
    | none => scanFor f rest

/-- Substring containment (JavaScript `String.prototype.includes`). -/
def litContains (pat : List Char) : List Char → Bool
  | [] => (litAt pat []).isSome
  | c :: rest => (litAt pat (c :: rest)).isSome || litContains pat rest

/-- Case-insensitive substring containment (a `/i` regex alternative that
is a plain literal). -/
def ciSubstr (pat : List Char) : List Char → Bool
  | [] => (ciLitAt pat []).isSome
  | c :: rest => (ciLitAt pat (c :: rest)).isSome || ciSubstr pat rest

/-- `ciSubstr` on strings. -/
def ciContainsS (s pat : String) : Bool := ciSubstr pat.data s.data

/-- Both-ends whitespace trim on a character list. -/
def trimChars (cs : List Char) : List Char :=
  ((cs.dropWhile isJsSpace).reverse.dropWhile isJsSpace).reverse

/-- JavaScript `String.prototype.trim`. -/
def jsTrim (s : String) : String := ⟨trimChars s.data⟩

/-- Exactly `n` ASCII digits (`\d{n}` followed by the rest). -/
def digitRun : Nat → List Char → Option (List Char)
  | 0, cs => some cs
  | _ + 1, [] => none
  | n + 1, c :: cs => if c.isDigit then digitRun n cs else none

/-- The anchored timestamp prefix `^\d{4}-\d{2}-\d{2}T[\d:.]+Z\s+` of
`cleanLine`'s first `.replace`; returns the remainder after the match.
The classes `[\d:.]` and `\s` are disjoint from the literals `Z` that
follow them, so greedy maximal munch is exact. -/
def matchTimestamp (cs : List Char) : Option (List Char) := do
  let r1 ← digitRun 4 cs
  let r2 ← litAt ['-'] r1
  let r3 ← digitRun 2 r2
  let r4 ← litAt ['-'] r3
  let r5 ← digitRun 2 r4
  let r6 ← litAt ['T'] r5
  let s1 := List.span (fun c => c.isDigit || c = ':' || c = '.') r6
  if s1.1 = [] then none else
  let r7 ← litAt ['Z'] s1.2
  let s2 := List.span isJsSpace r7
  if s2.1 = [] then none else
  some s2.2

/-- Remove the leading timestamp, if present (first `.replace` of
`cleanLine`; a `^`-anchored non-global replace rewrites at most one
occurrence, at the start). -/
def stripTimestamp (s : String) : String :=
  match matchTimestamp s.data with
  | some r => ⟨r⟩
  | none => s

/-- One match of `\x1b\[[0-9;]*[mGKHF]` starting at the current position;
returns the remainder after the match. -/
def ansiAt (cs : List Char) : Option (List Char) :=
  match cs with
  | e :: b :: rest =>
    if e = Char.ofNat 27 && b = '[' then
      let s := List.span (fun c => c.isDigit || c = ';') rest
      match s.2 with
      | d :: r2 =>
        if d = 'm' || d = 'G' || d = 'K' || d = 'H' || d = 'F' then some r2
        else none
      | [] => none
    else none
  | _ => none

/-- Global replace of `\x1b\[[0-9;]*[mGKHF]` by the empty string: scan
left to right, deleting each match and resuming after it.  The fuel
argument (always at least the list length plus one at the call site)
only certifies termination; every step consumes at least one character. -/
def stripAnsiGo : Nat → List Char → List Char
  | 0, cs => cs
  | _ + 1, [] => []
  | fuel + 1, c :: rest =>
    match ansiAt (c :: rest) with
    | some rem => stripAnsiGo fuel rem
    | none => c :: stripAnsiGo fuel rest

/-- Second `.replace` of `cleanLine`: remove all ANSI SGR/cursor escapes. -/
def stripAnsi (s : String) : String :=
  ⟨stripAnsiGo (s.data.length + 1) s.data⟩

/-- One match of `##\[(?:error|warning|debug|group|endgroup)\]` at the
current position (the five alternatives are mutually exclusive here);
returns the remainder after the match. -/
def markerAt (cs : List Char) : Option (List Char) :=
  match litAt "##[error]".data cs with
  | some r => some r
  | none =>
  match litAt "##[warning]".data cs with
  | some r => some r
  | none =>
  match litAt "##[debug]".data cs with
  | some r => some r
  | none =>
  match litAt "##[group]".data cs with
  | some r => some r
  | none => litAt "##[endgroup]".data cs

/-- Global-replace scan for `markerAt`, like `stripAnsiGo`. -/
def stripMarkersGo : Nat → List Char → List Char
  | 0, cs => cs
  | _ + 1, [] => []
  | fuel + 1, c :: rest =>
    match markerAt (c :: rest) with
    | some rem => stripMarkersGo fuel rem
    | none => c :: stripMarkersGo fuel rest

/-- Third `.replace` of `cleanLine`: remove all GitHub Actions
structured-annotation markers. -/
def stripMarkers (s : String) : String :=
  ⟨stripMarkersGo (s.data.length + 1) s.data⟩

/-- `cleanLine` (analyzer.ts:62): strip a leading timestamp, then all
ANSI escapes, then all GHA annotation markers, then trim. -/
def cleanLine (raw : String) : String :=
  jsTrim (stripMarkers (stripAnsi (stripTimestamp raw)))

/-- `logs.split('\n')` with JavaScript semantics (`""` yields `[""]`,
a trailing newline yields a trailing `""`). -/
def splitLinesGo (acc : List Char) : List Char → List String
  | [] => [⟨acc.reverse⟩]
  | c :: rest =>
    if c = Char.ofNat 10 then ⟨acc.reverse⟩ :: splitLinesGo [] rest
    else splitLinesGo (c :: acc) rest

/-- Split a log blob into raw lines. -/
def splitLines (s : String) : List String := splitLinesGo [] s.data

/-- The error-vocabulary regex `/error|failed|fatal|exception|FAIL|ERR!/i`
(analyzer.ts:426): a case-insensitive substring test for any alternative. -/
def errVocab (s : String) : Bool :=
  ciContainsS s "error" || ciContainsS s "failed" || ciContainsS s "fatal" ||
  ciContainsS s "exception" || ciContainsS s "FAIL" || ciContainsS s "ERR!"

/-- Nothing follows, or the next character is not a word character:
a `\b` boundary after a word character. -/
def nonWordOrEnd : List Char → Bool
  | [] => true
  | c :: _ => !isWordChar c

/-- The tail `(ing)?\b` after a matched `warn` in `\bwarn(ing)?\b`:
the greedy optional group with its backtracking (both alternatives are
tried, which is what JavaScript's engine does when the later `\b`
fails). -/
def warnBoundaryTail (u : List Char) : Bool :=
  (match ciLitAt "ing".data u with
   | some r => nonWordOrEnd r
   | none => false) || nonWordOrEnd u

/-- A match of `\bwarn(ing)?\b|WARN|⚠` (with `/i`) starting at the
current position, whose preceding character (if any) is `prev`. -/
def warnAt (prev : Option Char) (u : List Char) : Bool :=
  ((match prev with | none => true | some c => !isWordChar c) &&
   (match ciLitAt "warn".data u with
    | some r => warnBoundaryTail r
    | none => false)) ||
  (ciLitAt "WARN".data u).isSome ||
  (match u with | c :: _ => c = '⚠' | [] => false)

/-- Scan all positions for `warnAt`, tracking the previous character. -/
def warnScan : Option Char → List Char → Bool
  | prev, [] => warnAt prev []
  | prev, c :: rest => warnAt prev (c :: rest) || warnScan (some c) rest

/-- The warning-vocabulary regex `/\bwarn(ing)?\b|WARN|⚠/i`
(analyzer.ts:428). -/
def warnVocab (s : String) : Bool := warnScan none s.data

/-- The tail `s?\s*$` of the warning-count-summary regex: an optional
(case-insensitive) `s`, then only whitespace to the end. -/
def warnSummaryTail (u : List Char) : Bool :=
  u.all isJsSpace ||
  (match u with
   | c :: r => c.toLower = 's' && r.all isJsSpace
   | [] => false)

/-- The pure warning-count-summary regex `/^\s*\d+\s+warn(ing)?s?\s*$/i`
(analyzer.ts:428), e.g. `3 warnings`. -/
def warnSummary (s : String) : Bool :=
  let s0 := List.span isJsSpace s.data
  let s1 := List.span Char.isDigit s0.2
  if s1.1 = [] then false else
  let s2 := List.span isJsSpace s1.2
  if s2.1 = [] then false else
  match ciLitAt "warn".data s2.2 with
  | none => false
  | some u =>
    (match ciLitAt "ing".data u with
     | some r => warnSummaryTail r
     | none => false) || warnSummaryTail u

/-- Severity levels of a failure signature. -/
inductive Severity where
  | critical
  | warning
  | info
deriving DecidableEq, Repr

/-- `ErrorPattern` (analyzer.ts:44): a Pattern Catalog entry.  The
`pattern`/`flags` string pair of the source, used only through
`new RegExp(pattern, flags).test(line)`, is abstracted as `regex`:
`none` models a pattern whose compilation throws, `some t` a compiled
regex whose `.test` is the pure function `t`. -/
structure ErrorPattern where
  id : String
  category : String
  regex : Option (String → Bool)
  rootCause : String
  suggestion : String
  severity : Severity
  tags : List String
  docsUrl : Option String

/-- `BuildParam` (analyzer.ts:25). -/
structure BuildParam where
  key : String
  value : String
  source : String
deriving DecidableEq, Repr

/-- The `type` field of a `GitRef` (analyzer.ts:34). -/
inductive RefType where
  | action
  | docker
  | gitCheckout
  | submodule
deriving DecidableEq, Repr

/-- `GitRef` (analyzer.ts:31). -/
structure GitRef where
  repo : String
  ref : String
  type : RefType
deriving DecidableEq, Repr

/-- `ClonedRepo` (analyzer.ts:37). -/
structure ClonedRepo where
  repository : String
  branch : String
  commit : String
  depth : String
deriving DecidableEq, Repr

/-- `FailureAnalysis` (analyzer.ts:5).  The two
`Record<string, string[]>` category maps are association lists in
JavaScript object insertion order. -/
structure FailureAnalysis where
  rootCause : String
  failedStep : String
  suggestion : String
  errorLines : List String
  errorLinesByCategory : List (String × List String)
  warningLines : List String
  warningLinesByCategory : List (String × List String)
  exactMatchLine : String
  exactMatchLineNumber : Nat
  contextBefore : List String
  contextAfter : List String
  totalLines : Nat
  severity : Severity
  matchedPattern : String
  category : String
  docsUrl : Option String
  buildParams : List BuildParam
deriving DecidableEq, Repr

/-- JavaScript `a || b` on strings (and on possibly-undefined strings,
with `undefined` encoded as `""` by the call sites): the left operand
unless it is falsy. -/
def jsOrS (a b : String) : String := if a = "" then b else a

/-- `cleanedLines` (analyzer.ts:419): each raw line paired with its
1-based line number, the cleaned text of line `i` (0-based) carrying
number `i + 1`; `enumClean i` is the tail of that table starting at
0-based index `i`. -/
def enumClean : Nat → List String → List (String × Nat)
  | _, [] => []
  | i, r :: rs => (cleanLine r, i + 1) :: enumClean (i + 1) rs

/-- The error-line pass (analyzer.ts:424): every non-empty cleaned line
matching the error vocabulary, in order. -/
def errorLinesOf (cls : List (String × Nat)) : List String :=
  (cls.map Prod.fst).filter (fun c => !(c.length == 0) && errVocab c)

/-- The warning-line pass (analyzer.ts:428): every non-empty cleaned
line that is not an error line, matches the warning vocabulary and is
not a pure warning-count summary. -/
def warningLinesOf (cls : List (String × Nat)) : List String :=
  (cls.map Prod.fst).filter
    (fun c => !(c.length == 0) && !errVocab c && (warnVocab c && !warnSummary c))

/-- `mergePatterns` (analyzer.ts:105): all local entries, then the remote
entries whose id is not among the local ids (`localIds` is the JS `Set`
of local ids, here the id list queried by membership). -/
def mergePatterns (localPs remotePs : List ErrorPattern) : List ErrorPattern :=
  let localIds := localPs.map ErrorPattern.id
  let remoteOnly := remotePs.filter (fun p => !(localIds.contains p.id))
  localPs ++ remoteOnly

/-- `loadPatterns` (analyzer.ts:113), with its file-system and network
I/O abstracted: `localPs` stands for the list parsed by
`loadLocalPatterns` from `patterns.json` and `remotePs` for the list
fetched by `fetchRemotePatterns` (both recover from read/parse failures
by yielding `[]`, and neither validates the regexes of the entries it
yields); `hasRemoteUrl` is whether a `remoteUrl` argument was passed. -/
def loadPatterns (localPs remotePs : List ErrorPattern) (hasRemoteUrl : Bool) :
    List ErrorPattern :=
  if hasRemoteUrl then mergePatterns localPs remotePs else localPs

/-- The inner loop of the categorizers (analyzer.ts:126, 153): the first
catalog entry whose regex matches the line; an entry whose regex fails
to compile is skipped by the `try`/`catch`. -/
def firstMatchingPattern (patterns : List ErrorPattern) (line : String) :
    Option ErrorPattern :=
  patterns.find? (fun p =>
    match p.regex with
    | some t => t line
    | none => false)

/-- Append a line to a category bucket of an insertion-ordered
association list (`byCategory[cat].push(line)`, creating the key at the
end if absent, as JavaScript string-keyed objects do). -/
def addToCategory : List (String × List String) → String → String →
    List (String × List String)
  | [], cat, line => [(cat, [line])]
  | (c, ls) :: rest, cat, line =>
    if c = cat then (c, ls ++ [line]) :: rest
    else (c, ls) :: addToCategory rest cat line

/-- `categorizeErrorLines` (analyzer.ts:122): bucket each error line
under the category of the first matching entry, or `Other`. -/
def categorizeErrorLines (errorLines : List String)
    (patterns : List ErrorPattern) : List (String × List String) :=
  errorLines.foldl
    (fun m line =>
      match firstMatchingPattern patterns line with
      | some p => addToCategory m p.category line
      | none => addToCategory m "Other" line)
    []

/-- `categorizeWarningLines` (analyzer.ts:149): same with fallback
bucket `General`. -/
def categorizeWarningLines (warningLines : List String)
    (patterns : List ErrorPattern) : List (String × List String) :=
  warningLines.foldl
    (fun m line =>
      match firstMatchingPattern patterns line with
      | some p => addToCategory m p.category line
      | none => addToCategory m "General" line)
    []

/-- The apostrophe character, kept out of source literals. -/
def quoteC : Char := Char.ofNat 39

/-- A value tail `(.+)$`: the rest of the line, which must be non-empty
and free of line terminators (`.` matches everything else and `$` is the
absolute end without the `m` flag). -/
def dotTail (v : List Char) : Option (List Char) :=
  if !(v = []) && v.all dotChar then some v else none

/-- Matcher 1 key tail `([A-Z][A-Z0-9_]{2,})=(.+)$`: an uppercase
letter, at least two more of `[A-Z0-9_]` (greedy, and exact since the
class excludes `=`), `=`, then the value. -/
def bpKeyTail (ds : List Char) : Option (String × String) :=
  match ds with
  | [] => none
  | c :: rest =>
    if c.isUpper then
      let s := List.span (fun x => x.isUpper || x.isDigit || x = '_') rest
      if 2 ≤ s.1.length then
        match s.2 with
        | '=' :: v => (dotTail v).map (fun w => (⟨c :: s.1⟩, ⟨w⟩))
        | _ => none
      else none
    else none

/-- Matcher 1 (analyzer.ts:182): `^(?:export\s+)?([A-Z][A-Z0-9_]{2,})=(.+)$`;
the optional `export␣` prefix is tried first, and on failure of the rest
the engine retries without it. -/
def bpEnvAssign (cs : List Char) : Option (String × String) :=
  match litAt "export".data cs with
  | some r =>
    let sw := List.span isJsSpace r
    match (if !(sw.1 = []) then bpKeyTail sw.2 else none) with
    | some kv => some kv
    | none => bpKeyTail cs
  | none => bpKeyTail cs

/-- Matcher 2 position body: `Input '([^']+)' has been set to '([^']*)'$`. -/
def bpInputAt (u : List Char) : Option (String × String) := do
  let r ← litAt ("Input ".data ++ [quoteC]) u
  let s1 := List.span (fun c => !(c = quoteC)) r
  if s1.1 = [] then none else
  let r2 ← litAt ([quoteC] ++ " has been set to ".data ++ [quoteC]) s1.2
  let s2 := List.span (fun c => !(c = quoteC)) r2
  match s2.2 with
  | c :: rest => if c = quoteC && rest = [] then some (⟨s1.1⟩, ⟨s2.1⟩) else none
  | [] => none

/-- Matcher 2 (analyzer.ts:184), unanchored at the front. -/
def bpInput (cs : List Char) : Option (String × String) := scanFor bpInputAt cs

/-- Matcher 3 position body:
`--build-arg\s+([A-Za-z_][A-Za-z0-9_]*)=(\S+)`. -/
def bpBuildArgAt (u : List Char) : Option (String × String) := do
  let r ← litAt "--build-arg".data u
  let sw := List.span isJsSpace r
  if sw.1 = [] then none else
  match sw.2 with
  | c :: rest =>
    if c.isAlpha || c = '_' then
      let sk := List.span (fun x => x.isAlphanum || x = '_') rest
      match sk.2 with
      | '=' :: r2 =>
        let sv := List.span (fun x => !(isJsSpace x)) r2
        if sv.1 = [] then none else some (⟨c :: sk.1⟩, ⟨sv.1⟩)
      | _ => none
    else none
  | [] => none

/-- Matcher 3 (analyzer.ts:186). -/
def bpBuildArg (cs : List Char) : Option (String × String) :=
  scanFor bpBuildArgAt cs

/-- Matcher 4 position body: `-D([A-Za-z_][A-Za-z0-9_.]+)=(\S+)` (note
the key needs at least two characters and may contain dots). -/
def bpPropAt (u : List Char) : Option (String × String) := do
  let r ← litAt "-D".data u
  match r with
  | c :: rest =>
    if c.isAlpha || c = '_' then
      let sk := List.span (fun x => x.isAlphanum || x = '_' || x = '.') rest
      if sk.1 = [] then none else
      match sk.2 with
      | '=' :: r2 =>
        let sv := List.span (fun x => !(isJsSpace x)) r2
        if sv.1 = [] then none else some (⟨c :: sk.1⟩, ⟨sv.1⟩)
      | _ => none
    else none
  | [] => none

/-- Matcher 4 (analyzer.ts:188). -/
def bpProp (cs : List Char) : Option (String × String) := scanFor bpPropAt cs

/-- Matcher 5 (analyzer.ts:190):
`^(npm_config_[A-Za-z_]+|NODE_ENV|NODE_OPTIONS)=(.+)$`, alternatives in
order. -/
def bpNodeEnv (cs : List Char) : Option (String × String) :=
  let npm : Option (String × String) := do
    let r ← litAt "npm_config_".data cs
    let sk := List.span (fun x => x.isAlpha || x = '_') r
    if sk.1 = [] then none else
    match sk.2 with
    | '=' :: v => (dotTail v).map (fun w => (⟨"npm_config_".data ++ sk.1⟩, ⟨w⟩))
    | _ => none
  match npm with
  | some kv => some kv
  | none =>
  match litAt "NODE_ENV=".data cs with
  | some v => (dotTail v).map (fun w => ("NODE_ENV", ⟨w⟩))
  | none =>
  match litAt "NODE_OPTIONS=".data cs with
  | some v => (dotTail v).map (fun w => ("NODE_OPTIONS", ⟨w⟩))
  | none => none

/-- Matchers 6 and 7 position body: `::set-<kind> name=([^:]+)::(.*)$`. -/
def bpSetGenericAt (lead : List Char) (u : List Char) :
    Option (String × String) := do
  let r ← litAt lead u
  let sk := List.span (fun c => !(c = ':')) r
  if sk.1 = [] then none else
  let v ← litAt "::".data sk.2
  if v.all dotChar then some (⟨sk.1⟩, ⟨v⟩) else none

/-- Matcher 6 (analyzer.ts:192): `::set-env name=([^:]+)::(.*)$`. -/
def bpSetEnv (cs : List Char) : Option (String × String) :=
  scanFor (bpSetGenericAt "::set-env name=".data) cs

/-- Matcher 7 (analyzer.ts:194): `::set-output name=([^:]+)::(.*)$`. -/
def bpSetOutput (cs : List Char) : Option (String × String) :=
  scanFor (bpSetGenericAt "::set-output name=".data) cs

/-- The tail `\s+(.+)$` with its backtracking: the greedy whitespace run
gives characters back to the value (which must stay non-empty, all
dot-matchable, and reach the end) while keeping at least one. -/
def wsGiveBack : List Char → List Char → Option (List Char)
  | revRun, rest =>
    if !(rest = []) && rest.all dotChar then some rest
    else
      match revRun with
      | [] => none
      | [_] => none
      | c :: rs => wsGiveBack rs (c :: rest)

/-- `\s+(.+)$` starting at `u`. -/
def wsThenRest (u : List Char) : Option (List Char) :=
  let s := List.span isJsSpace u
  if s.1 = [] then none else wsGiveBack s.1.reverse s.2

/-- Matcher 8 (analyzer.ts:196): `^\s+with:\s+([A-Za-z_-]+):\s+(.+)$`
(it requires leading whitespace, which a `cleanLine`d line never has). -/
def bpWith (cs : List Char) : Option (String × String) := do
  let s0 := List.span isJsSpace cs
  if s0.1 = [] then none else
  let r ← litAt "with:".data s0.2
  let s1 := List.span isJsSpace r
  if s1.1 = [] then none else
  let sk := List.span (fun c => c.isAlpha || c = '_' || c = '-') s1.2
  if sk.1 = [] then none else
  match sk.2 with
  | ':' :: r2 => (wsThenRest r2).map (fun v => (⟨sk.1⟩, ⟨v⟩))
  | _ => none

/-- Matcher 9 (analyzer.ts:198): `^\s+env:\s+([A-Z][A-Z0-9_]+):\s+(.+)$`. -/
def bpEnvBlock (cs : List Char) : Option (String × String) := do
  let s0 := List.span isJsSpace cs
  if s0.1 = [] then none else
  let r ← litAt "env:".data s0.2
  let s1 := List.span isJsSpace r
  if s1.1 = [] then none else
  match s1.2 with
  | c :: rest =>
    if c.isUpper then
      let sk := List.span (fun x => x.isUpper || x.isDigit || x = '_') rest
      if sk.1 = [] then none else
      match sk.2 with
      | ':' :: r2 => (wsThenRest r2).map (fun v => (⟨c :: sk.1⟩, ⟨v⟩))
      | _ => none
    else none
  | [] => none

/-- The ordered matcher table of `extractBuildParams` (analyzer.ts:180):
the first matcher that fires wins for the line, with its `source` tag. -/
def bpMatchLine (line : String) : Option (String × String × String) :=
  let cs := line.data
  let tag := fun (src : String) (kv : String × String) => (kv.1, kv.2, src)
  (bpEnvAssign cs).map (tag "env") <|>
  (bpInput cs).map (tag "input") <|>
  (bpBuildArg cs).map (tag "cli-flag") <|>
  (bpProp cs).map (tag "cli-flag") <|>
  (bpNodeEnv cs).map (tag "env") <|>
  (bpSetEnv cs).map (tag "env") <|>
  (bpSetOutput cs).map (tag "output") <|>
  (bpWith cs).map (tag "input") <|>
  (bpEnvBlock cs).map (tag "env")

/-- `looksLikeSecret` (analyzer.ts:221): the credential-keyword regex
`/token|secret|password|passwd|api_key|apikey|auth|credential|private/i`
on the key, or a value that is or contains the `***` redaction marker. -/
def looksLikeSecret (key value : String) : Bool :=
  (ciContainsS key "token" || ciContainsS key "secret" ||
   ciContainsS key "password" || ciContainsS key "passwd" ||
   ciContainsS key "api_key" || ciContainsS key "apikey" ||
   ciContainsS key "auth" || ciContainsS key "credential" ||
   ciContainsS key "private") ||
  value == "***" || litContains "***".data value.data

/-- The line loop of `extractBuildParams` (analyzer.ts:201): clean each
line, skip empty ones, take the first matcher hit, and record the pair
unless its `key=value` identity was seen or it looks like a secret. -/
def bpGo : List String → List String → List BuildParam → List BuildParam
  | [], _, acc => acc
  | raw :: rest, seen, acc =>
    let line := cleanLine raw
    if line.length == 0 then bpGo rest seen acc
    else
      match bpMatchLine line with
      | none => bpGo rest seen acc
      | some (k, v, src) =>
        if !(seen.contains (k ++ "=" ++ v)) && !(looksLikeSecret k v) then
          bpGo rest (seen ++ [k ++ "=" ++ v]) (acc ++ [⟨k, v, src⟩])
        else bpGo rest seen acc

/-- `extractBuildParams` (analyzer.ts:176), capped at 30 entries. -/
def extractBuildParams (lines : List String) : List BuildParam :=
  (bpGo lines [] []).take 30

/-- Strip a `.git` suffix (`.replace(/\.git$/, '')`). -/
def stripDotGit (s : String) : String :=
  let cs := s.data
  if 4 ≤ cs.length && cs.drop (cs.length - 4) = ".git".data then
    ⟨cs.take (cs.length - 4)⟩
  else s

/-- `Syncing repository:\s+(\S+)` at one position. -/
def syncAt (u : List Char) : Option String := do
  let r ← litAt "Syncing repository:".data u
  let sw := List.span isJsSpace r
  if sw.1 = [] then none else
  let sv := List.span (fun c => !(isJsSpace c)) sw.2
  if sv.1 = [] then none else some ⟨sv.1⟩

/-- The sync-marker matcher of `extractClonedRepos` (analyzer.ts:305). -/
def syncM (cs : List Char) : Option String := scanFor syncAt cs

/-- The backtracking tail of `Setting up auth.*github\.com\/([^\s'"]+)`:
the greedy `.*` selects the last `github.com/` occurrence reachable
through dot-matchable characters that is followed by at least one
character outside `\s`, `'`, `"`. -/
def ghScan : List Char → Option String
  | [] => none
  | c :: rest =>
    let later := if dotChar c then ghScan rest else none
    match later with
    | some r => some r
    | none =>
      match litAt "github.com/".data (c :: rest) with
      | some r2 =>
        let sv := List.span
          (fun x => !(isJsSpace x) && !(x = quoteC) && !(x = '"')) r2
        if sv.1 = [] then none else some ⟨sv.1⟩
      | none => none

/-- The auth-line matcher of `extractClonedRepos` (analyzer.ts:318). -/
def authM (cs : List Char) : Option String :=
  scanFor
    (fun u =>
      match litAt "Setting up auth".data u with
      | some r => ghScan r
      | none => none)
    cs

/-- Ref namespaces distinguished by the checkout-ref matcher. -/
inductive RefNS where
  | heads
  | tags
  | pull
deriving DecidableEq, Repr

/-- `refs\/(heads|tags|pull)\/(\S+)` starting at `u`. -/
def refsCore (u : List Char) : Option (RefNS × String) :=
  let grab := fun (ns : RefNS) (r : List Char) =>
    let sv := List.span (fun c => !(isJsSpace c)) r
    if sv.1 = [] then none else some (ns, (⟨sv.1⟩ : String))
  match litAt "refs/heads/".data u with
  | some r => grab RefNS.heads r
  | none =>
  match litAt "refs/tags/".data u with
  | some r => grab RefNS.tags r
  | none =>
  match litAt "refs/pull/".data u with
  | some r => grab RefNS.pull r
  | none => none

/-- `[Cc]hecking out (?:ref:\s*)?refs\/(heads|tags|pull)\/(\S+)` at one
position: the optional `ref:` (with trailing whitespace) is tried first,
then the bare form. -/
def refAt (u : List Char) : Option (RefNS × String) :=
  match u with
  | c :: rest =>
    if c = 'C' || c = 'c' then
      match litAt "hecking out ".data rest with
      | some r =>
        let withRef :=
          match litAt "ref:".data r with
          | some r2 => refsCore (r2.dropWhile isJsSpace)
          | none => none
        match withRef with
        | some x => some x
        | none => refsCore r
      | none => none
    else none
  | [] => none

/-- The checkout-ref matcher of `extractClonedRepos` (analyzer.ts:324). -/
def refM (cs : List Char) : Option (RefNS × String) := scanFor refAt cs

/-- Lowercase-hex characters (`[a-f0-9]`). -/
def isHexLower (c : Char) : Bool :=
  c.isDigit || (Char.ofNat 97 ≤ c && c ≤ 'f')

/-- `HEAD is now at\s+([a-f0-9]{7,40})` at one position: at least 7 hex
characters, greedily capped at 40. -/
def headAt (u : List Char) : Option String := do
  let r ← litAt "HEAD is now at".data u
  let sw := List.span isJsSpace r
  if sw.1 = [] then none else
  let sh := List.span isHexLower sw.2
  if 7 ≤ sh.1.length then some ⟨sh.1.take 40⟩ else none

/-- The commit matcher of `extractClonedRepos` (analyzer.ts:334). -/
def headM (cs : List Char) : Option String := scanFor headAt cs

/-- `--depth[= ](\d+)` at one position. -/
def depthAt (u : List Char) : Option String := do
  let r ← litAt "--depth".data u
  match r with
  | c :: rest =>
    if c = '=' || c = ' ' then
      let sd := List.span Char.isDigit rest
      if sd.1 = [] then none else some ⟨sd.1⟩
    else none
  | [] => none

/-- The depth-flag matcher of `extractClonedRepos` (analyzer.ts:340). -/
def depthM (cs : List Char) : Option String := scanFor depthAt cs

/-- `fetch-depth:\s*(\d+)` at one position. -/
def fetchDepthAt (u : List Char) : Option String := do
  let r ← litAt "fetch-depth:".data u
  let sd := List.span Char.isDigit (r.dropWhile isJsSpace)
  if sd.1 = [] then none else some ⟨sd.1⟩

/-- The fetch-depth matcher of `extractClonedRepos` (analyzer.ts:346). -/
def fetchDepthM (cs : List Char) : Option String := scanFor fetchDepthAt cs

/-- The final capture `([^\s'"]+)` of the clone matcher. -/
def cloneCapture (u : List Char) : Option String :=
  let sv := List.span (fun x => !(isJsSpace x) && !(x = quoteC) && !(x = '"')) u
  if sv.1 = [] then none else some ⟨sv.1⟩

/-- `(?:https?:\/\/github\.com\/)?([^\s'"]+)` with the optional (greedy,
case-insensitive) URL prefix tried first and given up if the capture
then fails. -/
def urlThenCapture (u : List Char) : Option String :=
  match
    (match ciLitAt "https://github.com/".data u with
     | some r => cloneCapture r
     | none => none)
  with
  | some x => some x
  | none =>
    match
      (match ciLitAt "http://github.com/".data u with
       | some r => cloneCapture r
       | none => none)
    with
    | some x => some x
    | none => cloneCapture u

/-- The greedy flag loop `(?:--[^\s]+\s+)*` followed by the rest of the
clone matcher, deepest (most iterations) first, backing off an iteration
when the rest fails; the fuel is at least the input length at every call
and each iteration consumes at least four characters. -/
def flagsLoop : Nat → List Char → Option String
  | 0, u => urlThenCapture u
  | fuel + 1, u =>
    let deeper : Option String :=
      match litAt "--".data u with
      | some _ =>
        let st := List.span (fun x => !(isJsSpace x)) u
        if 3 ≤ st.1.length then
          let sw := List.span isJsSpace st.2
          if sw.1 = [] then none else flagsLoop fuel sw.2
        else none
      | none => none
    match deeper with
    | some r => some r
    | none => urlThenCapture u

/-- `git\s+clone\s+(?:--[^\s]+\s+)*(?:https?:\/\/github\.com\/)?([^\s'"]+)`
(with `/i`) at one position. -/
def cloneAt (u : List Char) : Option String := do
  let r ← ciLitAt "git".data u
  let sw := List.span isJsSpace r
  if sw.1 = [] then none else
  let r2 ← ciLitAt "clone".data sw.2
  let sw2 := List.span isJsSpace r2
  if sw2.1 = [] then none else
  flagsLoop (sw2.2.length + 1) sw2.2

/-- The standalone-clone matcher of `extractClonedRepos`
(analyzer.ts:352). -/
def cloneM (cs : List Char) : Option String := scanFor cloneAt cs

/-- `git\s+fetch\s+\S+\s+(\S+)` (with `/i`) at one position. -/
def fetchBranchAt (u : List Char) : Option String := do
  let r ← ciLitAt "git".data u
  let sw := List.span isJsSpace r
  if sw.1 = [] then none else
  let r2 ← ciLitAt "fetch".data sw.2
  let sw2 := List.span isJsSpace r2
  if sw2.1 = [] then none else
  let s1 := List.span (fun c => !(isJsSpace c)) sw2.2
  if s1.1 = [] then none else
  let sw3 := List.span isJsSpace s1.2
  if sw3.1 = [] then none else
  let s2 := List.span (fun c => !(isJsSpace c)) sw3.2
  if s2.1 = [] then none else some ⟨s2.1⟩

/-- The fetch-branch matcher of `extractClonedRepos` (analyzer.ts:362). -/
def fetchBranchM (cs : List Char) : Option String := scanFor fetchBranchAt cs

/-- Strip a leading `refs/heads/` (`.replace(/^refs\/heads\//, '')`). -/
def stripRefsHeads (s : String) : String :=
  match litAt "refs/heads/".data s.data with
  | some r => ⟨r⟩
  | none => s

/-- Remove the first occurrence of `/merge`
(`refName.replace('/merge', '')`, a string-argument replace). -/
def removeFirstMerge : List Char → List Char
  | [] => []
  | c :: rest =>
    match litAt "/merge".data (c :: rest) with
    | some r => r
    | none => c :: removeFirstMerge rest

/-- The accumulator of `extractClonedRepos` (analyzer.ts:292):
emitted records, the `seen` set, and the in-progress repo fields. -/
structure CloneAcc where
  repos : List ClonedRepo
  seen : List String
  repo : String
  branch : String
  commit : String
  depth : String
deriving DecidableEq, Repr

/-- The flush step of `extractClonedRepos` (analyzer.ts:307, 369): emit
the in-progress record if a repo is set and unseen, with `—`/`full`
fallbacks for unset fields. -/
def cloneFlush (a : CloneAcc) : CloneAcc :=
  if !(a.repo == "") && !(a.seen.contains a.repo) then
    { a with
      repos := a.repos ++
        [⟨a.repo, jsOrS a.branch "—", jsOrS a.commit "—", jsOrS a.depth "full"⟩],
      seen := a.seen ++ [a.repo] }
  else a

/-- One line of the `extractClonedRepos` loop (analyzer.ts:300): each
matcher block runs in source order on the same cleaned line. -/
def cloneStep (a : CloneAcc) (raw : String) : CloneAcc :=
  let line := cleanLine raw
  if line.length == 0 then a else
  let cs := line.data
  let a :=
    match syncM cs with
    | some r =>
      let a2 := cloneFlush a
      { a2 with repo := r, branch := "", commit := "", depth := "" }
    | none => a
  let a :=
    match authM cs with
    | some r => if a.repo == "" then { a with repo := stripDotGit r } else a
    | none => a
  let a :=
    match refM cs with
    | some (RefNS.heads, n) => { a with branch := n }
    | some (RefNS.tags, n) => { a with branch := "tag: " ++ n }
    | some (RefNS.pull, n) => { a with branch := "PR #" ++ (⟨removeFirstMerge n.data⟩ : String) }
    | none => a
  let a :=
    match headM cs with
    | some c => { a with commit := c }
    | none => a
  let a :=
    match depthM cs with
    | some d => { a with depth := d }
    | none => a
  let a :=
    match fetchDepthM cs with
    | some d => { a with depth := if d == "0" then "full" else d }
    | none => a
  let a :=
    match cloneM cs with
    | some r =>
      if (syncM cs).isNone then
        let cloned := stripDotGit r
        if litContains "/".data cloned.data && !(a.seen.contains cloned) then
          { a with repos := a.repos ++ [⟨cloned, "—", "—", "full"⟩],
                   seen := a.seen ++ [cloned] }
        else a
      else a
    | none => a
  let a :=
    match fetchBranchM cs with
    | some f =>
      if !(a.repo == "") then
        let fetched := stripRefsHeads f
        if a.branch == "" && !(fetched.startsWith "-") then
          { a with branch := fetched }
        else a
      else a
    | none => a
  a

/-- `extractClonedRepos` (analyzer.ts:291): fold the state machine over
the lines, flush the last in-progress record, cap at 20. -/
def extractClonedRepos (lines : List String) : List ClonedRepo :=
  (cloneFlush (lines.foldl cloneStep ⟨[], [], "", "", "", ""⟩)).repos.take 20

/-- A line that triggers no extraction rule of `extractClonedRepos`:
it cleans to the empty line (skipped), or every one of the eight
matchers rejects its cleaned text. -/
def cloneInert (l : String) : Bool :=
  (cleanLine l).length == 0 ||
  ((syncM (cleanLine l).data).isNone && (authM (cleanLine l).data).isNone &&
   (refM (cleanLine l).data).isNone && (headM (cleanLine l).data).isNone &&
   (depthM (cleanLine l).data).isNone &&
   (fetchDepthM (cleanLine l).data).isNone &&
   (cloneM (cleanLine l).data).isNone &&
   (fetchBranchM (cleanLine l).data).isNone)

/-- Step metadata as passed to `extractGitRefsFromSteps`
(analyzer.ts:378): name and nullable conclusion. -/
structure StepInfo where
  name : String
  conclusion : Option String
deriving DecidableEq, Repr

/-- `^Run\s+([a-zA-Z0-9_.-]+\/[a-zA-Z0-9_.-]+)@(\S+)` (analyzer.ts:388);
anchored, case-sensitive, classes disjoint from the separators that
follow them. -/
def runActionM (cs : List Char) : Option (String × String) := do
  let r ← litAt "Run".data cs
  let sw := List.span isJsSpace r
  if sw.1 = [] then none else
  let part := fun (x : Char) => x.isAlphanum || x = '_' || x = '.' || x = '-'
  let s1 := List.span part sw.2
  if s1.1 = [] then none else
  match s1.2 with
  | '/' :: r2 =>
    let s2 := List.span part r2
    if s2.1 = [] then none else
    match s2.2 with
    | '@' :: r3 =>
      let s3 := List.span (fun c => !(isJsSpace c)) r3
      if s3.1 = [] then none else
      some (⟨s1.1 ++ '/' :: s2.1⟩, ⟨s3.1⟩)
    | _ => none
  | _ => none

/-- The line loop of `extractGitRefsFromSteps`, deduplicating by
`repo@ref`. -/
def stepRefsGo : List String → List String → List GitRef → List GitRef
  | [], _, acc => acc
  | raw :: rest, seen, acc =>
    match runActionM (cleanLine raw).data with
    | some (repo, ref) =>
      let uid := repo ++ "@" ++ ref
      if !(seen.contains uid) then
        stepRefsGo rest (seen ++ [uid]) (acc ++ [⟨repo, ref, RefType.action⟩])
      else stepRefsGo rest seen acc
    | none => stepRefsGo rest seen acc

/-- `extractGitRefsFromSteps` (analyzer.ts:377): parses
`Run <owner/repo>@<ref>` invocation lines from the job logs; the step
metadata argument is not consulted. -/
def extractGitRefsFromSteps (steps : List StepInfo) (jobLogs : String) :
    List GitRef :=
  stepRefsGo (splitLines jobLogs) [] []

/-- The tail `[:\s]+(.+)` of the annotation branch of the failed-step
regex, with the greedy class run giving characters back until the
capture can start on a dot-matchable character. -/
def fsCapture : List Char → List Char → Option (List Char)
  | revRun, rest =>
    if (match rest with | c :: _ => dotChar c | [] => false) then
      some (rest.takeWhile dotChar)
    else
      match revRun with
      | [] => none
      | [_] => none
      | c :: rs => fsCapture rs (c :: rest)

/-- `[:\s]+(.+)` starting at `u`. -/
def fsTail (u : List Char) : Option (List Char) :=
  let s := List.span (fun c => c = ':' || isJsSpace c) u
  if s.1 = [] then none else fsCapture s.1.reverse s.2

/-- The backtracking of `.*step[:\s]+(.+)`: the greedy `.*` selects the
last case-insensitive `step` occurrence, reachable through dot-matchable
characters, whose tail matches. -/
def stepScanB1 : List Char → Option (List Char)
  | [] => none
  | c :: rest =>
    let later := if dotChar c then stepScanB1 rest else none
    match later with
    | some r => some r
    | none =>
      if (ciLitAt "step".data (c :: rest)).isSome then
        fsTail ((c :: rest).drop 4)
      else none

/-- First alternative of the failed-step regex (analyzer.ts:403),
`##\[error\].*step[:\s]+(.+)` (case-insensitive), at one position. -/
def fsAnnotationAt (u : List Char) : Option (List Char) :=
  match ciLitAt "##[error]".data u with
  | some r => stepScanB1 r
  | none => none

/-- The backtracking of `(.+) failed`: collect dot-matchable characters
and stop at the last ` failed` occurrence with a non-empty capture. -/
def runFailedScan : List Char → List Char → Option (List Char)
  | _, [] => none
  | acc, c :: rest =>
    let later := if dotChar c then runFailedScan (c :: acc) rest else none
    match later with
    | some r => some r
    | none =>
      if !(acc = []) && (ciLitAt " failed".data (c :: rest)).isSome then
        some acc.reverse
      else none

/-- Second alternative of the failed-step regex, `Run (.+) failed`
(case-insensitive), at one position. -/
def fsRunFailedAt (u : List Char) : Option (List Char) :=
  match ciLitAt "Run ".data u with
  | some r => runFailedScan [] r
  | none => none

/-- One line against `/##\[error\].*step[:\s]+(.+)|Run (.+) failed/i`,
returning `match[1] || match[2]`. -/
def fsLineMatch (line : String) : Option String :=
  scanFor
    (fun u =>
      match fsAnnotationAt u with
      | some v => some (⟨v⟩ : String)
      | none => (fsRunFailedAt u).map (fun v => (⟨v⟩ : String)))
    line.data

/-- `extractFailedStep` (analyzer.ts:400): the first line whose cleaned
text matches the failed-step regex. -/
def extractFailedStep (lines : List String) : Option String :=
  lines.findSome? (fun l => fsLineMatch (cleanLine l))

/-- The inner-loop test of the classifier (analyzer.ts:441): skip empty
cleaned lines, then apply the compiled regex test. -/
def lineMatches (t : String → Bool) (c : String × Nat) : Bool :=
  !(c.1.length == 0) && t c.1

/-- The nested pattern/line loops of `analyzeLogs` (analyzer.ts:439):
for each catalog entry in order, compile its regex — an entry whose
compilation throws aborts the whole analysis, there is no `try` here —
and return the first entry together with the first non-empty cleaned
line it matches; `none` when no entry matches any line. -/
def findFirstPatternMatch :
    List ErrorPattern → List (String × Nat) →
    Except Unit (Option (ErrorPattern × String × Nat))
  | [], _ => .ok none
  | p :: ps, cls =>
    match p.regex with
    | none => .error ()
    | some t =>
      match List.find? (lineMatches t) cls with
      | some c => .ok (some (p, c.1, c.2))
      | none => findFirstPatternMatch ps cls

/-- `contextBefore` (analyzer.ts:446):
`cleanedLines.slice(Math.max(0, idx - 2), idx)`, cleaned texts, empties
dropped (`filter(Boolean)`); at most the 2 lines just before `idx`. -/
def contextBeforeAt (cls : List (String × Nat)) (idx : Nat) : List String :=
  (((cls.drop (idx - 2)).take (idx - (idx - 2))).map Prod.fst).filter
    (fun c => !(c == ""))

/-- `contextAfter` (analyzer.ts:447):
`cleanedLines.slice(idx + 1, Math.min(cleanedLines.length, idx + 3))`,
cleaned texts, empties dropped; at most the 2 lines just after `idx`. -/
def contextAfterAt (cls : List (String × Nat)) (idx : Nat) : List String :=
  (((cls.drop (idx + 1)).take (min cls.length (idx + 3) - (idx + 1))).map
    Prod.fst).filter (fun c => !(c == ""))

/-- `analyzeLogs` (analyzer.ts:409).  The result is `Except.error ()`
exactly when the classifier loop reaches a catalog entry whose regex
fails to compile before any earlier entry has matched. -/
def analyzeLogs (logs : String) (patterns : List ErrorPattern)
    (stepName : Option String) : Except Unit FailureAnalysis :=
  let rawLines := splitLines logs
  let totalLines := rawLines.length
  let cls := enumClean 0 rawLines
  let errorLines := errorLinesOf cls
  let warningLines := warningLinesOf cls
  let buildParams := extractBuildParams rawLines
  let warningLinesByCategory := categorizeWarningLines warningLines patterns
  let failedStep :=
    jsOrS (stepName.getD "")
      (jsOrS ((extractFailedStep rawLines).getD "") "Unknown step")
  match findFirstPatternMatch patterns cls with
  | .error e => .error e
  | .ok (some (p, cl, ln)) =>
    let idx := cls.findIdx (fun c => c.2 == ln)
    .ok
      { rootCause := p.rootCause
        failedStep := failedStep
        suggestion := p.suggestion
        errorLines := errorLines
        errorLinesByCategory := categorizeErrorLines errorLines patterns
        warningLines := warningLines
        warningLinesByCategory := warningLinesByCategory
        exactMatchLine := cl
        exactMatchLineNumber := ln
        contextBefore := contextBeforeAt cls idx
        contextAfter := contextAfterAt cls idx
        totalLines := totalLines
        severity := p.severity
        matchedPattern := p.id
        category := p.category
        docsUrl := p.docsUrl
        buildParams := buildParams }
  | .ok none =>
    .ok
      { rootCause := "Unknown failure — could not automatically detect root cause"
        failedStep := failedStep
        suggestion := "Review the error lines below. Consider adding a custom pattern to patterns.json to handle this error in future runs."
        errorLines := errorLines
        errorLinesByCategory := categorizeErrorLines errorLines patterns
        warningLines := warningLines
        warningLinesByCategory := warningLinesByCategory
        exactMatchLine := jsOrS (errorLines.headD "") ""
        exactMatchLineNumber := 0
        contextBefore := []
        contextAfter := (errorLines.drop 1).take 2
        totalLines := totalLines
        severity := Severity.warning
        matchedPattern := "none"
        category := "Unknown"
        docsUrl := none
        buildParams := buildParams }

theorem dropWhile_head_false {α : Type} (p : α → Bool) (l : List α) :
    ∀ a, (l.dropWhile p).head? = some a → p a = false := by
  induction l with
  | nil => intro a h; simp [List.dropWhile] at h
  | cons b t ih =>
    intro a h
    by_cases hb : p b
    · rw [List.dropWhile_cons_of_pos hb] at h
      exact ih a h
    · rw [List.dropWhile_cons_of_neg hb] at h
      simp only [List.head?_cons, Option.some.injEq] at h
      subst h
      simpa using hb

theorem dropWhile_id_of_head {α : Type} (p : α → Bool) (l : List α)
    (h : ∀ a, l.head? = some a → p a = false) : l.dropWhile p = l := by
  cases l with
  | nil => rfl
  | cons a t =>
    have := h a rfl
    simp [List.dropWhile, this]

theorem getLast?_dropWhile {α : Type} (p : α → Bool) (l : List α)
    (h : l.dropWhile p ≠ []) : (l.dropWhile p).getLast? = l.getLast? := by
  induction l with
  | nil => simp [List.dropWhile] at h
  | cons a t ih =>
    by_cases ha : p a
    · rw [List.dropWhile_cons_of_pos ha] at h ⊢
      have ht : t ≠ [] := by
        intro he; subst he; simp [List.dropWhile] at h
      rw [ih h]
      cases t with
      | nil => exact absurd rfl ht
      | cons b u => simp [List.getLast?_cons_cons]
    · rw [List.dropWhile_cons_of_neg ha]

theorem dropWhile_idem {α : Type} (p : α → Bool) (l : List α) :
    (l.dropWhile p).dropWhile p = l.dropWhile p :=
  dropWhile_id_of_head p _ (dropWhile_head_false p l)

theorem trimChars_idem (cs : List Char) :
    trimChars (trimChars cs) = trimChars cs := by
  unfold trimChars
  set u := cs.dropWhile isJsSpace with hu
  set v := u.reverse.dropWhile isJsSpace with hv
  have hA : v.reverse.dropWhile isJsSpace = v.reverse := by
    apply dropWhile_id_of_head
    intro a ha
    rw [List.head?_reverse] at ha
    have hvne : v ≠ [] := by
      intro he; rw [he] at ha; simp at ha
    rw [hv, getLast?_dropWhile isJsSpace _ (hv ▸ hvne)] at ha
    rw [List.getLast?_reverse] at ha
    exact dropWhile_head_false isJsSpace cs a ha
  rw [hA, List.reverse_reverse]
  have hB : List.dropWhile isJsSpace v = v := by
    rw [hv]
    exact dropWhile_idem _ _
  rw [hB]

theorem jsTrim_idem (s : String) : jsTrim (jsTrim s) = jsTrim s := by
  unfold jsTrim
  exact congrArg String.mk (trimChars_idem s.data)

/-- C3: `mergePatterns` returns the local list followed, in order, by
exactly the remote entries whose id does not occur among the local ids;
local entries are never dropped, modified or reordered and colliding
remote entries are discarded. -/
theorem mergePatterns_local_precedence (localPs remotePs : List ErrorPattern) :
    mergePatterns localPs remotePs =
      localPs ++
        remotePs.filter
          (fun p => decide (p.id ∉ localPs.map ErrorPattern.id)) := by
  show localPs ++
      remotePs.filter
        (fun p => !((localPs.map ErrorPattern.id).contains p.id)) =
    localPs ++
      remotePs.filter (fun p => decide (p.id ∉ localPs.map ErrorPattern.id))
  congr 1
  apply List.filter_congr
  intro p _
  simp [List.contains, List.elem_iff]
  rw [← decide_not, decide_eq_decide]
  push_neg
  tauto

/-- C10: `extractGitRefsFromSteps` never consults its step-metadata
argument; for any two step lists its output over the same logs is
identical. -/
theorem extractGitRefsFromSteps_ignores_steps (s1 s2 : List StepInfo)
    (jobLogs : String) :
    extractGitRefsFromSteps s1 jobLogs = extractGitRefsFromSteps s2 jobLogs :=
  rfl

/-- C4 counterexample: `cleanLine` is not idempotent — trimming can
expose a leading timestamp that only the second pass removes. -/
theorem cleanLine_not_idempotent :
    cleanLine " 2024-01-01T00:00:00Z hi" = "2024-01-01T00:00:00Z hi" ∧
    cleanLine (cleanLine " 2024-01-01T00:00:00Z hi") = "hi" ∧
    cleanLine (cleanLine " 2024-01-01T00:00:00Z hi") ≠
      cleanLine " 2024-01-01T00:00:00Z hi" :=
  ⟨rfl, rfl, by decide⟩

/-- C4 amended: `cleanLine` is idempotent on every input whose
normalized form is left fixed by each of the three stripping passes
(in particular re-normalizing cannot re-trim: the output is already
trimmed). -/
theorem cleanLine_idem_of_strip_fixed (s : String)
    (h1 : stripTimestamp (cleanLine s) = cleanLine s)
    (h2 : stripAnsi (cleanLine s) = cleanLine s)
    (h3 : stripMarkers (cleanLine s) = cleanLine s) :
    cleanLine (cleanLine s) = cleanLine s := by
  show jsTrim (stripMarkers (stripAnsi (stripTimestamp (cleanLine s)))) =
    cleanLine s
  rw [h1, h2, h3]
  show jsTrim (jsTrim (stripMarkers (stripAnsi (stripTimestamp s)))) =
    jsTrim (stripMarkers (stripAnsi (stripTimestamp s)))
  exact jsTrim_idem _

set_option maxHeartbeats 2000000 in
theorem cleanLine_idem_of_strip_fixed_witness :
    stripTimestamp (cleanLine "npm ERR! code ENOENT") =
      cleanLine "npm ERR! code ENOENT" ∧
    cleanLine (cleanLine "npm ERR! code ENOENT") =
      cleanLine "npm ERR! code ENOENT" :=
  ⟨rfl, cleanLine_idem_of_strip_fixed "npm ERR! code ENOENT" rfl rfl rfl⟩

theorem ffpm_ok_of_all_compile (cls : List (String × Nat)) :
    ∀ ps : List ErrorPattern, (∀ p ∈ ps, p.regex.isSome = true) →
      ∃ o, findFirstPatternMatch ps cls = Except.ok o := by
  intro ps h
  induction ps with
  | nil => exact ⟨none, rfl⟩
  | cons p t ih =>
    have hp := h p (List.mem_cons_self p t)
    obtain ⟨tf, htf⟩ := Option.isSome_iff_exists.mp hp
    have ht := ih (fun q hq => h q (List.mem_cons_of_mem p hq))
    obtain ⟨o, ho⟩ := ht
    cases hf : List.find? (lineMatches tf) cls with
    | none =>
      refine ⟨o, ?_⟩
      simp only [findFirstPatternMatch, htf, hf]
      exact ho
    | some c =>
      exact ⟨some (p, c.1, c.2), by simp only [findFirstPatternMatch, htf, hf]⟩

set_option maxHeartbeats 2000000 in
/-- C7 counterexample: `loadPatterns` performs no regex validation — an
entry whose regex fails to compile is kept in the loaded catalog — and
`analyzeLogs` over such a catalog throws when the classifier loop
reaches that entry. -/
theorem loadPatterns_uncompilable_entry_throws :
    loadPatterns
        [⟨"bad-regex", "Unknown", none, "rc", "sg", Severity.warning, [], none⟩]
        [] false =
      [⟨"bad-regex", "Unknown", none, "rc", "sg", Severity.warning, [], none⟩] ∧
    analyzeLogs "some log line"
        (loadPatterns
          [⟨"bad-regex", "Unknown", none, "rc", "sg", Severity.warning, [],
            none⟩]
          [] false)
        none =
      Except.error () :=
  ⟨rfl, rfl⟩

/-- C7 amended: `analyzeLogs` never throws over a catalog all of whose
entries have a compilable regex (invalid regexes are skipped by the
categorize passes, but the loader keeps them and the classifier loop
throws on them). -/
theorem analyzeLogs_ok_of_all_compile (logs : String)
    (ps : List ErrorPattern) (stepName : Option String)
    (h : ∀ p ∈ ps, p.regex.isSome = true) :
    ∃ r, analyzeLogs logs ps stepName = Except.ok r := by
  obtain ⟨o, ho⟩ := ffpm_ok_of_all_compile (enumClean 0 (splitLines logs)) ps h
  cases o with
  | none =>
    exact ⟨_, by simp only [analyzeLogs]; rw [ho]⟩
  | some x =>
    obtain ⟨p, cl, ln⟩ := x
    exact ⟨_, by simp only [analyzeLogs]; rw [ho]⟩

set_option maxHeartbeats 2000000 in
theorem analyzeLogs_ok_of_all_compile_witness :
    ∃ r,
      analyzeLogs "error: boom"
          [⟨"never", "c", some (fun _ => false), "rc", "sg", Severity.info, [],
            none⟩]
          none =
        Except.ok r :=
  analyzeLogs_ok_of_all_compile "error: boom" _ none
    (by intro p hp; rw [List.mem_singleton] at hp; subst hp; rfl)

set_option maxHeartbeats 2000000 in
/-- C9: on the failing input — a raw line carrying the canonical
lowercase `##[error]` step annotation — `extractFailedStep` finds
nothing, because the marker is stripped by `cleanLine` before the
match is attempted, and `analyzeLogs` reports `Unknown step` where the
claim requires the named step. -/
theorem extractFailedStep_annotation_stripped :
    cleanLine "##[error] step: Build" = "step: Build" ∧
    extractFailedStep ["##[error] step: Build"] = none ∧
    (∃ r, analyzeLogs "##[error] step: Build" [] none = Except.ok r ∧
      r.failedStep = "Unknown step") :=
  ⟨rfl, rfl, _, rfl, rfl⟩

theorem jsOrS_empty (a : String) : jsOrS a "" = a := by
  unfold jsOrS
  split
  · rename_i h
    rw [h]
  · rfl

theorem ffpm_mem (ps : List ErrorPattern) (cls : List (String × Nat))
    (p : ErrorPattern) (cl : String) (ln : Nat)
    (h : findFirstPatternMatch ps cls = Except.ok (some (p, cl, ln))) :
    p ∈ ps := by
  induction ps with
  | nil => simp [findFirstPatternMatch] at h
  | cons q t ih =>
    simp only [findFirstPatternMatch] at h
    split at h
    · exact Except.noConfusion h
    · split at h
      · simp only [Except.ok.injEq, Option.some.injEq, Prod.mk.injEq] at h
        obtain ⟨h1, -⟩ := h
        rw [← h1]
        exact List.mem_cons_self q t
      · exact List.mem_cons_of_mem q (ih h)

theorem ffpm_none (cls : List (String × Nat)) (ps : List ErrorPattern)
    (h : ∀ q ∈ ps, ∃ tq, q.regex = some tq ∧
      List.find? (lineMatches tq) cls = none) :
    findFirstPatternMatch ps cls = Except.ok none := by
  induction ps with
  | nil => rfl
  | cons q t ih =>
    obtain ⟨tq, htq, hfind⟩ := h q (List.mem_cons_self q t)
    simp only [findFirstPatternMatch, htq, hfind]
    exact ih (fun x hx => h x (List.mem_cons_of_mem q hx))

theorem analyzeLogs_ok_lines (logs : String) (ps : List ErrorPattern)
    (stepName : Option String) (r : FailureAnalysis)
    (h : analyzeLogs logs ps stepName = Except.ok r) :
    r.errorLines = errorLinesOf (enumClean 0 (splitLines logs)) ∧
    r.warningLines = warningLinesOf (enumClean 0 (splitLines logs)) := by
  simp only [analyzeLogs] at h
  split at h
  · exact Except.noConfusion h
  · injection h with h2
    subst h2
    exact ⟨rfl, rfl⟩
  · injection h with h2
    subst h2
    exact ⟨rfl, rfl⟩

/-- C5: in any successful analysis the error-line and warning-line lists
are disjoint — every error line matches the error vocabulary, and every
warning line matches the warning vocabulary, is not a warning-count
summary, and does not match the error vocabulary. -/
theorem analyzeLogs_error_warning_disjoint (logs : String)
    (ps : List ErrorPattern) (stepName : Option String) (r : FailureAnalysis)
    (h : analyzeLogs logs ps stepName = Except.ok r) :
    (∀ l ∈ r.errorLines, errVocab l = true) ∧
    (∀ l ∈ r.warningLines,
      warnVocab l = true ∧ warnSummary l = false ∧ errVocab l = false) ∧
    (∀ l ∈ r.errorLines, l ∉ r.warningLines) := by
  obtain ⟨he, hw⟩ := analyzeLogs_ok_lines logs ps stepName r h
  have herr : ∀ l ∈ r.errorLines, errVocab l = true := by
    rw [he]
    intro l hl
    have hp := (List.mem_filter.mp hl).2
    simp only [Bool.and_eq_true] at hp
    exact hp.2
  have hwarn : ∀ l ∈ r.warningLines,
      warnVocab l = true ∧ warnSummary l = false ∧ errVocab l = false := by
    rw [hw]
    intro l hl
    have hp := (List.mem_filter.mp hl).2
    simp only [Bool.and_eq_true, Bool.not_eq_true'] at hp
    exact ⟨hp.2.1, hp.2.2, hp.1.2⟩
  refine ⟨herr, hwarn, ?_⟩
  intro l hl hlw
  have h1 := herr l hl
  have h2 := (hwarn l hlw).2.2
  rw [h1] at h2
  exact Bool.noConfusion h2

set_option maxHeartbeats 2000000 in
theorem analyzeLogs_error_warning_disjoint_witness :
    ∃ r, analyzeLogs "error: x\nwarning: y" [] none = Except.ok r ∧
      "error: x" ∉ r.warningLines := by
  refine ⟨_, rfl, ?_⟩
  exact (analyzeLogs_error_warning_disjoint "error: x\nwarning: y" [] none _
    rfl).2.2 "error: x" (by decide)

theorem bpGo_no_secrets (lines : List String) :
    ∀ seen acc,
      (∀ p ∈ acc, looksLikeSecret p.key p.value = false) →
      ∀ p ∈ bpGo lines seen acc, looksLikeSecret p.key p.value = false := by
  induction lines with
  | nil =>
    intro seen acc hacc p hp
    exact hacc p hp
  | cons raw rest ih =>
    intro seen acc hacc p hp
    rw [bpGo] at hp
    split at hp
    · exact ih seen acc hacc p hp
    · split at hp
      · exact ih seen acc hacc p hp
      · split at hp
        · rename_i k v src heq hguard
          refine ih _ _ ?_ p hp
          intro q hq
          rcases List.mem_append.mp hq with hq | hq
          · exact hacc q hq
          · rw [List.mem_singleton] at hq
            subst hq
            simp only [Bool.and_eq_true, Bool.not_eq_true'] at hguard
            exact hguard.2
        · exact ih seen acc hacc p hp

/-- C6: `extractBuildParams` never returns a pair whose key contains a
credential-suggestive substring (case-insensitively) or whose value is
or contains the `***` redaction marker. -/
theorem extractBuildParams_no_secrets (lines : List String) (p : BuildParam)
    (hp : p ∈ extractBuildParams lines) :
    (ciContainsS p.key "token" = false ∧ ciContainsS p.key "secret" = false ∧
     ciContainsS p.key "password" = false ∧
     ciContainsS p.key "api_key" = false ∧ ciContainsS p.key "auth" = false ∧
     ciContainsS p.key "credential" = false ∧
     ciContainsS p.key "private" = false) ∧
    p.value ≠ "***" ∧ litContains "***".data p.value.data = false := by
  have hm : p ∈ bpGo lines [] [] :=
    List.mem_of_mem_take hp
  have hsec := bpGo_no_secrets lines [] [] (by intro q hq; cases hq) p hm
  unfold looksLikeSecret at hsec
  constructor
  · refine ⟨?_, ?_, ?_, ?_, ?_, ?_, ?_⟩ <;>
    · by_contra hc
      rw [Bool.not_eq_false] at hc
      rw [hc] at hsec
      simp at hsec
  · constructor
    · intro he
      rw [he] at hsec
      simp at hsec
    · by_contra hc
      rw [Bool.not_eq_false] at hc
      rw [hc] at hsec
      simp at hsec

set_option maxHeartbeats 2000000 in
theorem extractBuildParams_no_secrets_witness :
    ((⟨"FOO", "bar", "env"⟩ : BuildParam) ∈ extractBuildParams ["FOO=bar"]) ∧
    ciContainsS "FOO" "token" = false ∧ ("bar" : String) ≠ "***" :=
  have h := extractBuildParams_no_secrets ["FOO=bar"] ⟨"FOO", "bar", "env"⟩
    (by decide)
  ⟨by decide, h.1.1, h.2.1⟩

/-- C2: a successful analysis carries a matched-pattern id that is
either the sentinel `none` or the id of a catalog entry; and when no
entry matches any non-empty cleaned line, the result is exactly the
fixed fallback (generic root cause and suggestion, severity `warning`,
category `Unknown`, sentinel id, first error line as the exact-match
line with line number 0, empty before-context, and the next two error
lines as after-context). -/
theorem analyzeLogs_sentinel_and_fallback :
    (∀ (logs : String) (ps : List ErrorPattern) (stepName : Option String)
        (r : FailureAnalysis),
      analyzeLogs logs ps stepName = Except.ok r →
      r.matchedPattern = "none" ∨ r.matchedPattern ∈ ps.map ErrorPattern.id) ∧
    (∀ (logs : String) (ps : List ErrorPattern) (stepName : Option String),
      (∀ q ∈ ps, ∃ tq, q.regex = some tq ∧
        List.find? (lineMatches tq) (enumClean 0 (splitLines logs)) = none) →
      ∃ r, analyzeLogs logs ps stepName = Except.ok r ∧
        r.rootCause = "Unknown failure — could not automatically detect root cause" ∧
        r.suggestion = "Review the error lines below. Consider adding a custom pattern to patterns.json to handle this error in future runs." ∧
        r.severity = Severity.warning ∧
        r.category = "Unknown" ∧
        r.matchedPattern = "none" ∧
        r.exactMatchLine =
          (errorLinesOf (enumClean 0 (splitLines logs))).headD "" ∧
        r.exactMatchLineNumber = 0 ∧
        r.contextBefore = [] ∧
        r.contextAfter =
          ((errorLinesOf (enumClean 0 (splitLines logs))).drop 1).take 2 ∧
        r.docsUrl = none) := by
  constructor
  · intro logs ps stepName r h
    simp only [analyzeLogs] at h
    split at h
    · exact Except.noConfusion h
    · rename_i p cl ln heq
      injection h with h2
      subst h2
      exact Or.inr (List.mem_map_of_mem ErrorPattern.id
        (ffpm_mem ps _ p cl ln heq))
    · injection h with h2
      subst h2
      exact Or.inl rfl
  · intro logs ps stepName h
    have hn := ffpm_none (enumClean 0 (splitLines logs)) ps h
    have hex : ∃ r, analyzeLogs logs ps stepName = Except.ok r :=
      ⟨_, by simp only [analyzeLogs]; rw [hn]⟩
    obtain ⟨r, hr⟩ := hex
    have hr2 := hr
    simp only [analyzeLogs] at hr2
    rw [hn] at hr2
    injection hr2 with h2
    refine ⟨r, hr, ?_, ?_, ?_, ?_, ?_, ?_, ?_, ?_, ?_, ?_⟩ <;> rw [← h2]
    exact jsOrS_empty _

set_option maxHeartbeats 2000000 in
theorem analyzeLogs_sentinel_and_fallback_witness :
    ∃ r, analyzeLogs "error: x" [] none = Except.ok r ∧
      r.matchedPattern = "none" ∧ r.exactMatchLine = "error: x" ∧
      r.exactMatchLineNumber = 0 := by
  obtain ⟨r, h1, -, -, -, -, hmp, hml, hnum, -, -, -⟩ :=
    analyzeLogs_sentinel_and_fallback.2 "error: x" [] none
      (by intro q hq; cases hq)
  refine ⟨r, h1, hmp, ?_, hnum⟩
  rw [hml]
  decide

set_option maxHeartbeats 4000000 in
theorem cloneStep_inert (a : CloneAcc) (l : String)
    (h : cloneInert l = true) : cloneStep a l = a := by
  unfold cloneInert at h
  by_cases he : ((cleanLine l).length == 0) = true
  · simp only [cloneStep, he, if_true]
  · rw [Bool.or_eq_true] at h
    rcases h with h | h
    · exact absurd h he
    · simp only [Bool.and_eq_true, Option.isNone_iff_eq_none] at h
      obtain ⟨⟨⟨⟨⟨⟨⟨h1, h2⟩, h3⟩, h4⟩, h5⟩, h6⟩, h7⟩, h8⟩ := h
      simp only [cloneStep, he, if_false, h1, h2, h3, h4, h5, h6, h7, h8]
      exact if_neg Bool.false_ne_true

theorem foldl_cloneStep_inert (ls : List String)
    (h : ∀ l ∈ ls, cloneInert l = true) :
    ∀ a, ls.foldl cloneStep a = a := by
  induction ls with
  | nil => intro a; rfl
  | cons x t ih =>
    intro a
    rw [List.foldl_cons, cloneStep_inert a x (h x (List.mem_cons_self x t))]
    exact ih (fun l hl => h l (List.mem_cons_of_mem x hl)) a

set_option maxHeartbeats 2000000 in
/-- C8: an input containing the `Syncing repository: acme/widgets`
marker twice, separated (and surrounded) by lines that trigger no
extraction rule, yields exactly one record for `acme/widgets`, carrying
the first occurrence's (empty) accumulated fields rendered as `—`
placeholders and depth `full`. -/
theorem extractClonedRepos_dedups_sync (pre mid post : List String)
    (hpre : ∀ l ∈ pre, cloneInert l = true)
    (hmid : ∀ l ∈ mid, cloneInert l = true)
    (hpost : ∀ l ∈ post, cloneInert l = true) :
    extractClonedRepos
        (pre ++ "Syncing repository: acme/widgets" ::
          (mid ++ "Syncing repository: acme/widgets" :: post)) =
      [⟨"acme/widgets", "—", "—", "full"⟩] := by
  unfold extractClonedRepos
  rw [List.foldl_append, foldl_cloneStep_inert pre hpre, List.foldl_cons,
    List.foldl_append, foldl_cloneStep_inert mid hmid, List.foldl_cons,
    foldl_cloneStep_inert post hpost]
  decide

set_option maxHeartbeats 2000000 in
theorem extractClonedRepos_dedups_sync_witness :
    extractClonedRepos
        ["fetching sources", "Syncing repository: acme/widgets", "building",
          "Syncing repository: acme/widgets"] =
      [⟨"acme/widgets", "—", "—", "full"⟩] :=
  extractClonedRepos_dedups_sync ["fetching sources"] ["building"] []
    (by decide) (by decide) (by decide)

theorem enumClean_snd_bounds (rs : List String) :
    ∀ (i : Nat) (cl : String) (ln : Nat),
      (cl, ln) ∈ enumClean i rs → i + 1 ≤ ln ∧ ln ≤ i + rs.length := by
  induction rs with
  | nil => intro i cl ln h; cases h
  | cons r rest ih =>
    intro i cl ln h
    simp only [enumClean] at h
    rcases List.mem_cons.mp h with heq | hmem
    · have h2 : ln = i + 1 := congrArg Prod.snd heq
      simp only [List.length_cons]
      omega
    · have h3 := ih (i + 1) cl ln hmem
      simp only [List.length_cons]
      omega

theorem enumClean_findIdx (rs : List String) :
    ∀ (i : Nat) (cl : String) (ln : Nat), (cl, ln) ∈ enumClean i rs →
      (enumClean i rs).findIdx (fun c => c.2 == ln) = ln - (i + 1) := by
  induction rs with
  | nil => intro i cl ln h; cases h
  | cons r rest ih =>
    intro i cl ln h
    simp only [enumClean] at h ⊢
    rcases List.mem_cons.mp h with heq | hmem
    · have h2 : ln = i + 1 := congrArg Prod.snd heq
      rw [List.findIdx_cons]
      have hb : ((cleanLine r, i + 1).2 == ln) = true := by
        simp [h2]
      rw [hb, Bool.cond_true]
      omega
    · have hbnd := enumClean_snd_bounds rest (i + 1) cl ln hmem
      have hb : ((cleanLine r, i + 1).2 == ln) = false := by
        simp only [beq_eq_false_iff_ne, ne_eq]
        omega
      rw [List.findIdx_cons, hb, Bool.cond_false, ih (i + 1) cl ln hmem]
      omega

theorem ffpm_select (cls : List (String × Nat)) (pre post : List ErrorPattern)
    (p : ErrorPattern) (t : String → Bool) (cl : String) (ln : Nat)
    (hpre : ∀ q ∈ pre, ∃ tq, q.regex = some tq ∧
      List.find? (lineMatches tq) cls = none)
    (hp : p.regex = some t)
    (hfind : List.find? (lineMatches t) cls = some (cl, ln)) :
    findFirstPatternMatch (pre ++ p :: post) cls =
      Except.ok (some (p, cl, ln)) := by
  induction pre with
  | nil =>
    simp only [List.nil_append, findFirstPatternMatch, hp, hfind]
  | cons q rest ih =>
    obtain ⟨tq, htq, hfq⟩ := hpre q (List.mem_cons_self q rest)
    simp only [List.cons_append, findFirstPatternMatch, htq, hfq]
    exact ih (fun x hx => hpre x (List.mem_cons_of_mem q hx))

/-- C1: when the catalog splits as `pre ++ p :: post` where every entry
of `pre` compiles and matches no non-empty cleaned line, `p` compiles to
`t`, and `(cl, ln)` is the first (in original line order) non-empty
cleaned line matching `t`, then `analyzeLogs` succeeds and returns
`p`'s rootCause/suggestion/severity/category/docsUrl verbatim, `p.id`
as the matched pattern, `cl` as the exact-match line with 1-based line
number `ln`, and as context the up-to-2 immediately preceding and
following cleaned lines with empties dropped. -/
theorem analyzeLogs_first_match (logs : String) (pre post : List ErrorPattern)
    (p : ErrorPattern) (t : String → Bool) (stepName : Option String)
    (cl : String) (ln : Nat)
    (hpre : ∀ q ∈ pre, ∃ tq, q.regex = some tq ∧
      List.find? (lineMatches tq) (enumClean 0 (splitLines logs)) = none)
    (hp : p.regex = some t)
    (hfind : List.find? (lineMatches t) (enumClean 0 (splitLines logs)) =
      some (cl, ln)) :
    ∃ r, analyzeLogs logs (pre ++ p :: post) stepName = Except.ok r ∧
      r.rootCause = p.rootCause ∧ r.suggestion = p.suggestion ∧
      r.severity = p.severity ∧ r.category = p.category ∧
      r.docsUrl = p.docsUrl ∧ r.matchedPattern = p.id ∧
      r.exactMatchLine = cl ∧ r.exactMatchLineNumber = ln ∧
      r.contextBefore =
        contextBeforeAt (enumClean 0 (splitLines logs)) (ln - 1) ∧
      r.contextAfter =
        contextAfterAt (enumClean 0 (splitLines logs)) (ln - 1) := by
  have hsel := ffpm_select (enumClean 0 (splitLines logs)) pre post p t cl ln
    hpre hp hfind
  have hmem := List.mem_of_find?_eq_some hfind
  have hidx : (enumClean 0 (splitLines logs)).findIdx
      (fun c => c.2 == ln) = ln - 1 := by
    rw [enumClean_findIdx (splitLines logs) 0 cl ln hmem]
  have hex : ∃ r, analyzeLogs logs (pre ++ p :: post) stepName =
      Except.ok r :=
    ⟨_, by simp only [analyzeLogs]; rw [hsel]⟩
  obtain ⟨r, hr⟩ := hex
  have hr2 := hr
  simp only [analyzeLogs] at hr2
  rw [hsel] at hr2
  injection hr2 with h2
  refine ⟨r, hr, ?_, ?_, ?_, ?_, ?_, ?_, ?_, ?_, ?_, ?_⟩ <;> rw [← h2]
  · rw [hidx]
  · rw [hidx]

set_option maxHeartbeats 4000000 in
theorem analyzeLogs_first_match_witness :
    ∃ r,
      analyzeLogs "a\nboom happened\nc"
          [⟨"boom-id", "Boom", some (fun s => ciContainsS s "boom"),
            "Boom cause", "Fix boom", Severity.critical, [], some "docs"⟩]
          none = Except.ok r ∧
      r.matchedPattern = "boom-id" ∧ r.exactMatchLine = "boom happened" ∧
      r.exactMatchLineNumber = 2 ∧ r.contextBefore = ["a"] ∧
      r.contextAfter = ["c"] := by
  obtain ⟨r, h1, -, -, -, -, -, hmp, hml, hnum, hcb, hca⟩ :=
    analyzeLogs_first_match "a\nboom happened\nc" [] []
      ⟨"boom-id", "Boom", some (fun s => ciContainsS s "boom"), "Boom cause",
        "Fix boom", Severity.critical, [], some "docs"⟩
      (fun s => ciContainsS s "boom") none "boom happened" 2
      (by intro q hq; cases hq) rfl (by decide)
  refine ⟨r, h1, hmp, hml, hnum, ?_, ?_⟩
  · rw [hcb]
    decide
  · rw [hca]
    decide
